import Mathlib

/-!
Verification of the news-fetching and analysis pipeline (`index.py`).

The Python program is embedded shallowly:

* an article dictionary becomes the `Article` structure; the fields
  `sentiment` and `subjectivity` are `Option`s because the dictionaries
  produced by the fetcher do not carry them until the sentiment pass adds
  them, and `description` is an `Option` because no code path of the
  repository ever writes that key;
* Python floats appear in this program only as opaque scores that are
  stored, compared with nothing, and overwritten by the constant `0.1`;
  they are modelled by `ℚ`;
* the sentiment model (`transformers` pipeline) is an external black box
  and is modelled as an arbitrary function `String → String × ℚ` giving a
  label and a score for a title;
* CPython dictionary semantics (insertion order, last write wins) and
  in-place mutation of shared dictionaries are made explicit: the
  deduplicated dictionaries form a store (`List Article`) and the lists
  built afterwards hold references (positions) into that store, so that a
  mutation performed while iterating one list is visible through all of
  them, exactly as with shared `dict` objects;
* exception control flow in `fetch_news` is modelled by `PyResult`:
  a Python function either returns a value or lets an exception escape.
-/

/-- A raw result object of the search API: the three fields read by
`fetch_news` (`article["title"]`, `article["url"]`, `article["publishedAt"]`).
Articles missing one of them would raise `KeyError`; the specification
assumes presence, so the fields are plain strings. -/
structure RawArticle where
  title : String
  url : String
  publishedAt : String
deriving DecidableEq, Repr

/-- An article dictionary as it flows through the pipeline.
`title`, `link` and `published` are written by the projection of the fetcher
(line 51 of `index.py`); `sentiment` and `subjectivity` are absent until
`analyze_sentiment` stores them; `description` is never written by this
program, so reading it with `.get("description", "")` yields `""`. -/
structure Article where
  title : String
  link : String
  published : String
  description : Option String
  sentiment : Option String
  subjectivity : Option ℚ
deriving DecidableEq, Repr

instance : Inhabited Article :=
  ⟨{ title := "", link := "", published := "", description := none,
     sentiment := none, subjectivity := none }⟩

/-- Keyword list `keywords_vish` (line 22 of `index.py`). -/
def keywords_vish : List String := ["инженерная школа", "РУТ МИИТ", "ВИШ"]

/-- Keyword list `keywords_high_speed` (line 23 of `index.py`). -/
def keywords_high_speed : List String := ["ВСМ", "скоростные магистрали", "высокоскоростной"]

/-- Keyword list `keywords_rzd` (line 24 of `index.py`). -/
def keywords_rzd : List String := ["РЖД", "Российские железные дороги"]

/-- Result of running a Python function: either a returned value or an
exception (identified by its class name) escaping the call. -/
inductive PyResult (α : Type) where
  | ret (a : α)
  | exn (name : String)
deriving DecidableEq, Repr

namespace NewsParser

/-- One step of the dict comprehension
`{entry["link"]: entry for entry in all_articles}` (line 156 of
`index.py`): inserting `a` under key `a.link` into a CPython dict keeps
the position of an existing key, overwriting its value, and appends a new
key at the end.  The key of every stored entry is the `link` of the entry itself,
so the dict is represented by the list of its values. -/
def dictInsert (m : List Article) (a : Article) : List Article :=
  if m.any (fun b => decide (b.link = a.link)) then
    m.map (fun b => if b.link = a.link then a else b)
  else
    m ++ [a]

/-- The values of `{entry["link"]: entry for entry in all_articles}`
(line 156 of `index.py`), in dict iteration order. -/
def dedupByLink (l : List Article) : List Article :=
  l.foldl dictInsert []

end NewsParser

/-- The links of the articles of a list, in order. -/
def linksOf (m : List Article) : List String :=
  m.map Article.link

/-- The subsequence of first occurrences of a list of strings: keeps each
distinct string at the position where it first appears.  Used to state in
what order the dict comprehension lists its keys. -/
def firstOccurrences : List String → List String
  | [] => []
  | x :: xs => x :: firstOccurrences (xs.filter (fun y => decide (y ≠ x)))
termination_by l => l.length
decreasing_by
  simp only [List.length_cons]
  exact Nat.lt_succ_of_le (List.length_filter_le _ _)

namespace NewsFetcher

/-- An HTTP response as far as `fetch_news` observes it: the status code
and the `articles` array of the JSON body.  `response.json().get("articles", [])`
yields `[]` when the key is absent, which is folded into this field. -/
structure HttpResponse where
  status : Nat
  articles : List RawArticle
deriving DecidableEq, Repr

/-- Outcome of `self.session.get(url, headers=HEADERS)` (line 38): either a
response object, or an exception raised before any response object was
bound to the local variable `response` (connection failure, or the
retries of the adapter exhausted). -/
inductive GetResult where
  | resp (r : HttpResponse)
  | ioError
deriving DecidableEq, Repr

/-- The retry policy configured on the session (line 30 of `index.py`):
`Retry(total=5, backoff_factor=0.1, status_forcelist=[500, 502, 503, 504])`. -/
structure RetryConfig where
  total : Nat
  backoff_factor : ℚ
  status_forcelist : List Nat
deriving DecidableEq, Repr

/-- The `Retry` object mounted on the session for both schemes
(lines 30-32 of `index.py`). -/
def sessionRetries : RetryConfig :=
  { total := 5, backoff_factor := 1 / 10, status_forcelist := [500, 502, 503, 504] }

/-- The projection performed on each raw result (line 51 of `index.py`). -/
def projectArticle (r : RawArticle) : Article :=
  { title := r.title, link := r.url, published := r.publishedAt,
    description := none, sentiment := none, subjectivity := none }

/-- Behaviour of `NewsFetcher.fetch_news` (lines 34-53 of `index.py`) after the HTTP
exchange.  `raise_for_status` raises `HTTPError` exactly when the status
code lies in `[400, 600)`; the handler then logs and returns `[]`.  When
`session.get` itself raised, the local variable `response` was never
assigned, and the `if response is not None:` test of the handler raises
`UnboundLocalError`, which no handler catches (CPython semantics of
reading a local variable before its first assignment). -/
def fetch_news (g : GetResult) : PyResult (List Article) :=
  match g with
  | GetResult.ioError => PyResult.exn "UnboundLocalError"
  | GetResult.resp r =>
    if 400 ≤ r.status ∧ r.status < 600 then PyResult.ret []
    else PyResult.ret (r.articles.map projectArticle)

/-- Modelled from the spec: the retry loop of the third-party
`urllib3.Retry`/`HTTPAdapter` machinery configured on the session; the
adapter itself is library code, not part of the sources of this repository.
`script` lists the responses the server would give to successive attempts.
A status in `status_forcelist` consumes one retry and the next attempt is
made; a response with any other status is returned to the caller.  `none`
models the adapter raising — retries exhausted on a forced status, or a
connection failure once the script is empty — with no response object
produced. -/
def retryGo (cfg : RetryConfig) : Nat → List HttpResponse → Option HttpResponse
  | _, [] => none
  | retriesLeft, r :: rest =>
    if r.status ∈ cfg.status_forcelist then
      match retriesLeft with
      | 0 => none
      | n + 1 => retryGo cfg n rest
    else some r

/-- Modelled from the spec: `session.get` through the mounted adapter,
allowing `sessionRetries.total` retries. -/
def sessionGet (script : List HttpResponse) : Option HttpResponse :=
  retryGo sessionRetries sessionRetries.total script

/-- Composition of `fetch_news` with the adapter: when the adapter produced no
response, `session.get` raised and the `ioError` path of `fetch_news` is
taken. -/
def fetch_news_scripted (script : List HttpResponse) : PyResult (List Article) :=
  match sessionGet script with
  | some r => fetch_news (GetResult.resp r)
  | none => fetch_news GetResult.ioError

end NewsFetcher

namespace NewsParser

/-- Method `filter_and_sort_articles` (lines 69-71 of `index.py`):
`sorted(articles, key=lambda x: x["published"], reverse=True)` — a stable
sort, descending under the lexicographic order on `published`. -/
def filter_and_sort_articles (articles : List Article) : List Article :=
  List.insertionSort (fun a b => b.published ≤ a.published) articles

/-- The in-place update performed on one article dictionary by
`analyze_sentiment` (lines 76-79): store the label of the model under
`sentiment` and its score under `subjectivity`. -/
def scoreOne (model : String → String × ℚ) (article : Article) : Article :=
  { article with sentiment := some (model article.title).1,
                 subjectivity := some (model article.title).2 }

/-- Method `analyze_sentiment` (lines 73-81): mutates every article of the list in
place and returns the same list. -/
def analyze_sentiment (model : String → String × ℚ) (articles : List Article) :
    List Article :=
  articles.map (scoreOne model)

/-- The in-place update performed on one article dictionary by
`adjust_subjectivity` (lines 85-87). -/
def adjustOne (article : Article) : Article :=
  if article.sentiment = some "NEUTRAL" then
    { article with subjectivity := some (1 / 10 : ℚ) }
  else article

/-- Method `adjust_subjectivity` (lines 83-88). -/
def adjust_subjectivity (articles : List Article) : List Article :=
  articles.map adjustOne

/-- The condition of `filter_articles_by_keywords` (lines 141-143):
`any(keyword in title or keyword in summary for keyword in keywords)`,
where `title = article.get("title", "")` and
`summary = article.get("description", "")`.  In Python `keyword in s` is the
contiguous-substring test, i.e. the character list of `keyword` occurs as
an infix of the character list of `s`. -/
def matchesKeywords (article : Article) (keywords : List String) : Bool :=
  keywords.any (fun keyword =>
    decide (keyword.data <:+: article.title.data) ||
    decide (keyword.data <:+: (article.description.getD "").data))

/-- Method `filter_articles_by_keywords` (lines 137-145). -/
def filter_articles_by_keywords (articles : List Article) (keywords : List String) :
    List Article :=
  articles.filter (fun article => matchesKeywords article keywords)

/-- Fixed-point rendering of a score with two digits after the point, as
the format spec `.2f` produces for the values occurring here.  Python formats its
binary floats with round-half-to-even; the two renderings differ only at
exact decimal ties, which the scores used in the claims about this pipeline do
not hit. -/
def formatFixed2 (q : ℚ) : String :=
  let cents : ℤ := round (q * 100)
  let sign := if cents < 0 then "-" else ""
  let n := cents.natAbs
  let fracPart := n % 100
  let pad := if fracPart < 10 then "0" else ""
  sign ++ toString (n / 100) ++ "." ++ pad ++ toString fracPart

/-- The colour picked for an entry (line 111 of `index.py`). -/
def sentimentColor (s : String) : String :=
  if s = "POSITIVE" then "green" else if s = "NEGATIVE" then "red" else "gray"

/-- One `<li>` of the dashboard (line 112 of `index.py`).  Reading a
missing `sentiment` or `subjectivity` key would raise `KeyError`,
modelled by `none`. -/
def renderEntry (entry : Article) : Option String := do
  let s ← entry.sentiment
  let subj ← entry.subjectivity
  let c := sentimentColor s
  let lk := entry.link
  let t := entry.title
  let p := entry.published
  let f := formatFixed2 subj
  some s!"<li><a href=\x27{lk}\x27 style=\x27color:{c}\x27>{t}</a> - {p} (Настроение: {s}, Субъективность: {f})</li>"

/-- The list items accumulated by the loop of `create_dashboard`
(lines 110-112 of `index.py`), in order. -/
def dashboardItems (data : List Article) : Option (List String) :=
  data.mapM renderEntry

/-- Static head of the dashboard page (lines 92-109 of `index.py`). -/
def dashboardHeader : String :=
  "\n        <html>\n        <head>\n            <meta charset=\"UTF-8\">\n            <title>Новостная панель</title>\n            <style>\n                body \x7b font-family: Arial, sans-serif; \x7d\n                h1 \x7b color: #333; \x7d\n                ul \x7b list-style-type: none; padding: 0; \x7d\n                li \x7b margin: 10px 0; \x7d\n                a \x7b text-decoration: none; color: #1a0dab; \x7d\n                a:hover \x7b text-decoration: underline; \x7d\n            </style>\n        </head>\n        <body>\n            <h1>Новостная панель</h1>\n            <ul>\n        "

/-- Static tail of the dashboard page (lines 113-117 of `index.py`). -/
def dashboardFooter : String :=
  "\n            </ul>\n        </body>\n        </html>\n        "

/-- Method `create_dashboard` (lines 90-118 of `index.py`). -/
def create_dashboard (data : List Article) : Option String := do
  let items ← dashboardItems data
  some (dashboardHeader ++ String.join items ++ dashboardFooter)

/-- The six collections assembled at lines 171-178 of `index.py`. -/
structure Report where
  unique_articles : List Article
  analyzed_articles : List Article
  filtered_vish : List Article
  filtered_high_speed : List Article
  filtered_rzd : List Article
  final_articles : List Article
deriving DecidableEq, Repr

/-- The key/value pairs of the dict literal serialized to
`all_articles.json` (lines 171-178 of `index.py`), in source order. -/
def reportPairs (r : Report) : List (String × List Article) :=
  [("unique_articles", r.unique_articles),
   ("analyzed_articles", r.analyzed_articles),
   ("filtered_vish", r.filtered_vish),
   ("filtered_high_speed", r.filtered_high_speed),
   ("filtered_rzd", r.filtered_rzd),
   ("final_articles", r.final_articles)]

/-- In-place mutation of the dictionary store: iterate over a list of
references (positions in the store), replacing each referenced dictionary
by `f` of its current state.  This is the shallow embedding of
`for article in articles: ...mutate article...` when `articles` is a list
of references into the store. -/
def setMany (f : Article → Article) (store : List Article) (refs : List Nat) :
    List Article :=
  refs.foldl (fun st i => st.set i (f (st.getD i default))) store

/-- The references of the store in the order produced by
`filter_and_sort_articles(list(unique_articles))` (line 159): a stable
descending sort on the `published` field of the referenced dictionaries. -/
def sortedRefsOf (store : List Article) : List Nat :=
  List.insertionSort
    (fun i j => (store.getD j default).published ≤ (store.getD i default).published)
    (List.range store.length)

/-- Method `NewsParser.main` (lines 147-181 of `index.py`), as a function of the
three fetched lists and the sentiment model.  The deduplicated
dictionaries form the store; every later list holds references into it;
`analyze_sentiment` and `adjust_subjectivity` mutate the store through the
references of the sorted list, which covers every dictionary; and the six
collections of the report are read off from the final store at the moment
the JSON file is written. -/
def main (model : String → String × ℚ)
    (vish_news high_speed_news russian_railways_news : List Article) : Report :=
  let all_articles := vish_news ++ high_speed_news ++ russian_railways_news
  let store₀ := dedupByLink all_articles
  let sortedRefs := sortedRefsOf store₀
  let store₂ := setMany adjustOne (setMany (scoreOne model) store₀ sortedRefs) sortedRefs
  let readRef := fun i => store₂.getD i default
  let filtered_vish_refs :=
    sortedRefs.filter (fun i => matchesKeywords (readRef i) keywords_vish)
  let filtered_high_speed_refs :=
    sortedRefs.filter (fun i => matchesKeywords (readRef i) keywords_high_speed)
  let filtered_rzd_refs :=
    sortedRefs.filter (fun i => matchesKeywords (readRef i) keywords_rzd)
  let final_refs := filtered_vish_refs ++ filtered_high_speed_refs ++ filtered_rzd_refs
  { unique_articles := (List.range store₀.length).map readRef,
    analyzed_articles := sortedRefs.map readRef,
    filtered_vish := filtered_vish_refs.map readRef,
    filtered_high_speed := filtered_high_speed_refs.map readRef,
    filtered_rzd := filtered_rzd_refs.map readRef,
    final_articles := final_refs.map readRef }

end NewsParser

/-! Concrete inputs used to exercise the theorems below on closed data. -/

/-- A sentiment model answering `NEUTRAL` with confidence `0.87` on every
title. -/
def wModelNeutral : String → String × ℚ := fun _ => ("NEUTRAL", 87 / 100)

/-- A sentiment model answering `POSITIVE` with confidence `1` on every
title. -/
def wModelPositive : String → String × ℚ := fun _ => ("POSITIVE", 1)

/-- A fetched article with a neutral-looking title. -/
def wArticleA : Article :=
  { title := "a-title", link := "https://example.com/a",
    published := "2024-01-01T00:00:00Z", description := none,
    sentiment := none, subjectivity := none }

/-- Article `wArticleA` after scoring with `wModelPositive` and adjusting. -/
def wArticleAPositive : Article :=
  { title := "a-title", link := "https://example.com/a",
    published := "2024-01-01T00:00:00Z", description := none,
    sentiment := some "POSITIVE", subjectivity := some 1 }

/-- A fetched article whose title holds keywords of two different keyword
lists (`ВСМ` and `РЖД`). -/
def wArticleMulti : Article :=
  { title := "ВСМ и РЖД", link := "https://example.com/m",
    published := "2024-02-01T00:00:00Z", description := none,
    sentiment := none, subjectivity := none }

/-- Article `wArticleMulti` after scoring with `wModelPositive` and adjusting:
non-neutral, so the score of the model is kept. -/
def wArticleMultiPositive : Article :=
  { title := "ВСМ и РЖД", link := "https://example.com/m",
    published := "2024-02-01T00:00:00Z", description := none,
    sentiment := some "POSITIVE", subjectivity := some 1 }

/-- A raw API result. -/
def wRaw : RawArticle :=
  { title := "t", url := "https://example.com/r", publishedAt := "2024-03-01T00:00:00Z" }

/-- A server script answering 503 on the first three attempts and 200 with
one article on the fourth. -/
def wScript503 : List NewsFetcher.HttpResponse :=
  [{ status := 503, articles := [] }, { status := 503, articles := [] },
   { status := 503, articles := [] }, { status := 200, articles := [wRaw] }]

namespace NewsParser

theorem linksOf_dictInsert (m : List Article) (a : Article) :
    linksOf (dictInsert m a) =
      if a.link ∈ linksOf m then linksOf m else linksOf m ++ [a.link] := by
  unfold dictInsert
  by_cases h : a.link ∈ linksOf m
  · have hany : m.any (fun b => decide (b.link = a.link)) = true := by
      rw [List.any_eq_true]
      rcases List.mem_map.1 h with ⟨b, hb, hlink⟩
      exact ⟨b, hb, by simp [hlink]⟩
    rw [if_pos hany, if_pos h]
    unfold linksOf
    rw [List.map_map]
    have : (Article.link ∘ fun b => if b.link = a.link then a else b) = Article.link := by
      funext b
      simp only [Function.comp_apply]
      by_cases hb : b.link = a.link
      · rw [if_pos hb, hb]
      · rw [if_neg hb]
    rw [this]
  · have hany : m.any (fun b => decide (b.link = a.link)) = false := by
      rw [List.any_eq_false]
      intro b hb
      simp only [decide_eq_true_eq]
      intro hlink
      exact h (List.mem_map.2 ⟨b, hb, hlink⟩)
    rw [if_neg (by simp [hany]), if_neg h]
    unfold linksOf
    rw [List.map_append]
    rfl

theorem linksOf_dictInsert_nodup (m : List Article) (a : Article)
    (hm : (linksOf m).Nodup) : (linksOf (dictInsert m a)).Nodup := by
  rw [linksOf_dictInsert]
  by_cases h : a.link ∈ linksOf m
  · rwa [if_pos h]
  · rw [if_neg h]
    simp [List.nodup_append, hm, h]

/-- Filtering the overwritten dict: the entry sharing the inserted key is
replaced by the new article and everything else is untouched. -/
theorem filter_map_replace (m : List Article) (a : Article) (k : String)
    (hm : (linksOf m).Nodup) (hmem : a.link ∈ linksOf m) :
    (m.map (fun b => if b.link = a.link then a else b)).filter
        (fun b => decide (b.link = k)) =
      if a.link = k then [a]
      else m.filter (fun b => decide (b.link = k)) := by
  induction m with
  | nil => simp [linksOf] at hmem
  | cons b m ih =>
    have hm' : (linksOf m).Nodup := by
      unfold linksOf at hm ⊢
      simp only [List.map_cons, List.nodup_cons] at hm
      exact hm.2
    by_cases hb : b.link = a.link
    · have hnotin : a.link ∉ linksOf m := by
        unfold linksOf at hm ⊢
        simp only [List.map_cons, List.nodup_cons] at hm
        rw [← hb]
        exact hm.1
      have hrest : m.map (fun c => if c.link = a.link then a else c) = m.map id := by
        apply List.map_congr_left
        intro c hc
        have hcl : c.link ≠ a.link := by
          intro he
          exact hnotin (he ▸ List.mem_map.2 ⟨c, hc, rfl⟩)
        simp [hcl]
      rw [List.map_cons, if_pos hb, hrest, List.map_id]
      by_cases hk : a.link = k
      · have hfilt : m.filter (fun c => decide (c.link = k)) = [] := by
          rw [List.filter_eq_nil_iff]
          intro c hc
          simp only [decide_eq_true_eq]
          intro he
          exact hnotin (hk ▸ he ▸ List.mem_map.2 ⟨c, hc, rfl⟩)
        simp [List.filter_cons, hk, hfilt]
      · have hbk : ¬ (b.link = k) := fun he => hk (hb ▸ he)
        simp [List.filter_cons, hk, hbk]
    · have hmem' : a.link ∈ linksOf m := by
        unfold linksOf at hmem ⊢
        simp only [List.map_cons, List.mem_cons] at hmem
        rcases hmem with h | h
        · exact absurd h.symm hb
        · exact h
      have ihm := ih hm' hmem'
      rw [List.map_cons, if_neg hb]
      by_cases hk : a.link = k
      · have hbk : ¬ (b.link = k) := fun he => hb (hk ▸ he)
        rw [if_pos hk] at ihm
        rw [List.filter_cons, if_neg (by simp [hbk]), ihm, if_pos hk]
      · rw [if_neg hk] at ihm
        by_cases hbk : b.link = k
        · rw [List.filter_cons, if_pos (by simp [hbk]), ihm, if_neg hk,
            List.filter_cons, if_pos (by simp [hbk])]
        · rw [List.filter_cons, if_neg (by simp [hbk]), ihm, if_neg hk,
            List.filter_cons, if_neg (by simp [hbk])]

/-- Filtering the dict for a given key after one insertion. -/
theorem filter_dictInsert (m : List Article) (a : Article) (k : String)
    (hm : (linksOf m).Nodup) :
    (dictInsert m a).filter (fun b => decide (b.link = k)) =
      if a.link = k then [a]
      else m.filter (fun b => decide (b.link = k)) := by
  unfold dictInsert
  by_cases hmem : a.link ∈ linksOf m
  · have hany : m.any (fun b => decide (b.link = a.link)) = true := by
      rw [List.any_eq_true]
      rcases List.mem_map.1 hmem with ⟨b, hb, hlink⟩
      exact ⟨b, hb, by simp [hlink]⟩
    rw [if_pos hany]
    exact filter_map_replace m a k hm hmem
  · have hany : m.any (fun b => decide (b.link = a.link)) = false := by
      rw [List.any_eq_false]
      intro b hb
      simp only [decide_eq_true_eq]
      intro hlink
      exact hmem (List.mem_map.2 ⟨b, hb, hlink⟩)
    rw [if_neg (by simp [hany]), List.filter_append]
    by_cases hk : a.link = k
    · have hfilt : m.filter (fun b => decide (b.link = k)) = [] := by
        rw [List.filter_eq_nil_iff]
        intro b hb
        simp only [decide_eq_true_eq]
        intro he
        exact hmem (hk ▸ he ▸ List.mem_map.2 ⟨b, hb, rfl⟩)
      simp [hk, hfilt]
    · simp [hk]

/-- Filtering the final dict for a key yields the last matching input
article, or whatever the initial dict held for the key when the input has
no match. -/
theorem foldl_dictInsert_filter (l : List Article) (m : List Article)
    (hm : (linksOf m).Nodup) (k : String) :
    (l.foldl dictInsert m).filter (fun b => decide (b.link = k)) =
      match l.reverse.find? (fun b => decide (b.link = k)) with
      | some b => [b]
      | none => m.filter (fun b => decide (b.link = k)) := by
  induction l generalizing m with
  | nil => simp
  | cons a t ih =>
    rw [List.foldl_cons, ih (dictInsert m a) (linksOf_dictInsert_nodup m a hm)]
    rw [List.reverse_cons, List.find?_append]
    cases hfind : t.reverse.find? (fun b => decide (b.link = k)) with
    | some b => simp [Option.or]
    | none =>
      simp only [Option.or, List.find?_singleton]
      rw [filter_dictInsert m a k hm]
      by_cases hk : a.link = k
      · simp [hk]
      · simp [hk]

end NewsParser

theorem firstOccurrences_subset (l : List String) (y : String)
    (hy : y ∈ firstOccurrences l) : y ∈ l := by
  induction l using firstOccurrences.induct with
  | case1 => simp [firstOccurrences] at hy
  | case2 x xs ih =>
    rw [firstOccurrences] at hy
    rcases List.mem_cons.1 hy with h | h
    · exact h ▸ List.mem_cons_self x xs
    · exact List.mem_cons_of_mem x (List.mem_of_mem_filter (ih h))

theorem firstOccurrences_nodup (l : List String) : (firstOccurrences l).Nodup := by
  induction l using firstOccurrences.induct with
  | case1 => simp [firstOccurrences]
  | case2 x xs ih =>
    rw [firstOccurrences, List.nodup_cons]
    refine ⟨fun hx => ?_, ih⟩
    have := List.of_mem_filter (firstOccurrences_subset _ _ hx)
    simp at this

namespace NewsParser

/-- The keys of the dict built by folding `dictInsert` come in
first-occurrence order: keys already present keep their position. -/
theorem foldl_dictInsert_links (l : List Article) (m : List Article) :
    linksOf (l.foldl dictInsert m) =
      linksOf m ++ firstOccurrences ((l.map Article.link).filter
        (fun s => !decide (s ∈ linksOf m))) := by
  induction l generalizing m with
  | nil => simp [firstOccurrences]
  | cons a t ih =>
    rw [List.foldl_cons, ih (dictInsert m a), linksOf_dictInsert]
    by_cases h : a.link ∈ linksOf m
    · rw [if_pos h, List.map_cons, List.filter_cons, if_neg (by simp [h])]
    · rw [if_neg h, List.map_cons, List.filter_cons, if_pos (by simp [h])]
      rw [firstOccurrences, List.append_assoc, List.singleton_append]
      congr 2
      rw [List.filter_filter]
      apply congrArg
      apply List.filter_congr
      intro s _
      by_cases h1 : s ∈ linksOf m <;> by_cases h2 : s = a.link <;>
        simp [h1, h2]

/-- The links of the deduplicated list, in first-occurrence order. -/
theorem dedupByLink_links (l : List Article) :
    linksOf (dedupByLink l) = firstOccurrences (l.map Article.link) := by
  unfold dedupByLink
  rw [foldl_dictInsert_links]
  have : (l.map Article.link).filter (fun s => !decide (s ∈ linksOf ([] : List Article)))
      = l.map Article.link := by
    rw [List.filter_eq_self]
    intro s _
    simp [linksOf]
  rw [this]
  simp [linksOf]

/-- The deduplicated list has pairwise distinct links. -/
theorem dedupByLink_links_nodup (l : List Article) :
    (linksOf (dedupByLink l)).Nodup := by
  rw [dedupByLink_links]
  exact firstOccurrences_nodup _

/-- Filtering the deduplicated list for a key yields exactly the last
input occurrence of that key (none when the key never occurs). -/
theorem dedupByLink_filter (l : List Article) (k : String) :
    (dedupByLink l).filter (fun b => decide (b.link = k)) =
      (l.reverse.find? (fun b => decide (b.link = k))).toList := by
  unfold dedupByLink
  rw [foldl_dictInsert_filter l [] (by simp [linksOf]) k]
  cases hf : l.reverse.find? (fun b => decide (b.link = k)) <;> simp

theorem setMany_length (f : Article → Article) (refs : List Nat) (store : List Article) :
    (setMany f store refs).length = store.length := by
  induction refs generalizing store with
  | nil => rfl
  | cons i refs ih =>
    unfold setMany at *
    rw [List.foldl_cons, ih, List.length_set]

theorem setMany_getElem? (f : Article → Article) (refs : List Nat)
    (hnd : refs.Nodup) (store : List Article) (j : Nat) :
    (setMany f store refs)[j]? =
      if j ∈ refs then (store[j]?).map f else store[j]? := by
  induction refs generalizing store with
  | nil => simp [setMany]
  | cons i refs ih =>
    rw [List.nodup_cons] at hnd
    unfold setMany at *
    rw [List.foldl_cons, ih hnd.2]
    by_cases hj : j ∈ refs
    · have hji : i ≠ j := fun he => hnd.1 (he ▸ hj)
      rw [if_pos hj, if_pos (List.mem_cons_of_mem _ hj), List.getElem?_set_ne hji]
    · rw [if_neg hj]
      by_cases hji : j = i
      · subst hji
        rw [if_pos (List.mem_cons_self _ _), List.getElem?_set_self']
        cases hs : store[j]? with
        | none => rfl
        | some x =>
          have hgd : store.getD j default = x := by
            simp [List.getD_eq_getElem?_getD, hs]
          simp [hgd, hs, Function.const]
      · rw [if_neg (by simp [hj, hji]), List.getElem?_set_ne (fun h => hji h.symm)]

/-- Mutating the store once through every reference, in any order, is a
`map` over the store. -/
theorem setMany_eq_map (f : Article → Article) (store : List Article)
    (refs : List Nat) (hp : refs.Perm (List.range store.length)) :
    setMany f store refs = store.map f := by
  have hnd : refs.Nodup := hp.nodup_iff.2 (List.nodup_range _)
  apply List.ext_getElem?
  intro j
  rw [setMany_getElem? f refs hnd store j, List.getElem?_map]
  by_cases hj : j < store.length
  · rw [if_pos (hp.mem_iff.2 (List.mem_range.2 hj))]
  · rw [if_neg (fun hc => hj (List.mem_range.1 (hp.mem_iff.1 hc)))]
    rw [List.getElem?_eq_none (by omega)]
    rfl

theorem range_map_getD (l : List Article) (d : Article) :
    (List.range l.length).map (fun i => l.getD i d) = l := by
  apply List.ext_getElem (by simp)
  intro i h1 h2
  simp [List.getD_eq_getElem?_getD, List.getElem?_eq_getElem h2]

theorem sortedRefsOf_perm (store : List Article) :
    (sortedRefsOf store).Perm (List.range store.length) :=
  List.perm_insertionSort _ _

/-- The complete effect of scoring followed by the neutral adjustment on
one article dictionary preserves its `link`. -/
theorem enrich_link (model : String → String × ℚ) (a : Article) :
    (adjustOne (scoreOne model a)).link = a.link := by
  unfold adjustOne scoreOne
  by_cases h : (some (model a.title).1 = some "NEUTRAL") <;> simp [h]

/-- After the two mutation passes of `main`, the store is the original
deduplicated store with every dictionary scored and adjusted. -/
theorem main_store_eq (model : String → String × ℚ) (store : List Article) :
    setMany adjustOne (setMany (scoreOne model) store (sortedRefsOf store))
        (sortedRefsOf store) =
      store.map (fun a => adjustOne (scoreOne model a)) := by
  rw [setMany_eq_map (scoreOne model) store _ (sortedRefsOf_perm store)]
  rw [setMany_eq_map adjustOne _ _ (by
    rw [List.length_map]
    exact sortedRefsOf_perm store)]
  rw [List.map_map]
  rfl

/-- Filtering references then reading the store is reading the store then
filtering the articles. -/
theorem map_filter_comp (f : Nat → Article) (p : Article → Bool) (l : List Nat) :
    (l.filter (fun i => p (f i))).map f = (l.map f).filter p := by
  induction l with
  | nil => rfl
  | cons i l ih =>
    by_cases h : p (f i) <;> simp [List.filter_cons, h, ih]

/-- The `unique_articles` collection rendered into the report is the whole
final store: the deduplicated dictionaries, each scored and adjusted. -/
theorem main_unique_eq (model : String → String × ℚ) (v h z : List Article) :
    (main model v h z).unique_articles =
      (dedupByLink (v ++ h ++ z)).map (fun a => adjustOne (scoreOne model a)) := by
  simp only [main, main_store_eq]
  rw [← List.length_map (dedupByLink (v ++ h ++ z)) (fun a => adjustOne (scoreOne model a))]
  exact range_map_getD _ _

/-- The `analyzed_articles` collection is a permutation of the final
store. -/
theorem main_analyzed_perm (model : String → String × ℚ) (v h z : List Article) :
    (main model v h z).analyzed_articles.Perm
      ((dedupByLink (v ++ h ++ z)).map (fun a => adjustOne (scoreOne model a))) := by
  simp only [main, main_store_eq]
  have hp := (sortedRefsOf_perm (dedupByLink (v ++ h ++ z))).map
    (fun i => ((dedupByLink (v ++ h ++ z)).map
      (fun a => adjustOne (scoreOne model a))).getD i default)
  refine hp.trans ?_
  rw [← List.length_map (dedupByLink (v ++ h ++ z)) (fun a => adjustOne (scoreOne model a))]
  exact (range_map_getD _ _) ▸ List.Perm.refl _

theorem main_filtered_vish_eq (model : String → String × ℚ) (v h z : List Article) :
    (main model v h z).filtered_vish =
      (main model v h z).analyzed_articles.filter
        (fun a => matchesKeywords a keywords_vish) := by
  simp only [main]
  exact map_filter_comp
    (fun i => (setMany adjustOne
      (setMany (scoreOne model) (dedupByLink (v ++ h ++ z))
        (sortedRefsOf (dedupByLink (v ++ h ++ z))))
      (sortedRefsOf (dedupByLink (v ++ h ++ z)))).getD i default)
    (fun a => matchesKeywords a keywords_vish) _

theorem main_filtered_high_speed_eq (model : String → String × ℚ) (v h z : List Article) :
    (main model v h z).filtered_high_speed =
      (main model v h z).analyzed_articles.filter
        (fun a => matchesKeywords a keywords_high_speed) := by
  simp only [main]
  exact map_filter_comp
    (fun i => (setMany adjustOne
      (setMany (scoreOne model) (dedupByLink (v ++ h ++ z))
        (sortedRefsOf (dedupByLink (v ++ h ++ z))))
      (sortedRefsOf (dedupByLink (v ++ h ++ z)))).getD i default)
    (fun a => matchesKeywords a keywords_high_speed) _

theorem main_filtered_rzd_eq (model : String → String × ℚ) (v h z : List Article) :
    (main model v h z).filtered_rzd =
      (main model v h z).analyzed_articles.filter
        (fun a => matchesKeywords a keywords_rzd) := by
  simp only [main]
  exact map_filter_comp
    (fun i => (setMany adjustOne
      (setMany (scoreOne model) (dedupByLink (v ++ h ++ z))
        (sortedRefsOf (dedupByLink (v ++ h ++ z))))
      (sortedRefsOf (dedupByLink (v ++ h ++ z)))).getD i default)
    (fun a => matchesKeywords a keywords_rzd) _

theorem main_final_eq (model : String → String × ℚ) (v h z : List Article) :
    (main model v h z).final_articles =
      (main model v h z).filtered_vish ++ (main model v h z).filtered_high_speed ++
        (main model v h z).filtered_rzd := by
  simp only [main]
  simp [List.map_append]

/-- Scoring and adjusting preserve the links, so the final store keeps the
pairwise-distinct links of the deduplicated store. -/
theorem main_analyzed_nodup (model : String → String × ℚ) (v h z : List Article) :
    (main model v h z).analyzed_articles.Nodup := by
  have hlinks : ((dedupByLink (v ++ h ++ z)).map
      (fun a => adjustOne (scoreOne model a))).map Article.link =
        linksOf (dedupByLink (v ++ h ++ z)) := by
    unfold linksOf
    rw [List.map_map]
    apply List.map_congr_left
    intro a _
    exact enrich_link model a
  have h2 : ((dedupByLink (v ++ h ++ z)).map
      (fun a => adjustOne (scoreOne model a))).Nodup := by
    apply List.Nodup.of_map Article.link
    rw [hlinks]
    exact dedupByLink_links_nodup (v ++ h ++ z)
  exact ((main_analyzed_perm model v h z).nodup_iff).2 h2

/-- Every member of `analyzed_articles` is an enriched deduplicated
dictionary. -/
theorem main_mem_analyzed (model : String → String × ℚ) (v h z : List Article)
    (a : Article) (ha : a ∈ (main model v h z).analyzed_articles) :
    ∃ b ∈ dedupByLink (v ++ h ++ z), a = adjustOne (scoreOne model b) := by
  have := (main_analyzed_perm model v h z).mem_iff.1 ha
  rcases List.mem_map.1 this with ⟨b, hb, he⟩
  exact ⟨b, hb, he.symm⟩

/-- After scoring and adjusting, both derived fields are present. -/
theorem enrich_fields (model : String → String × ℚ) (a : Article) :
    (adjustOne (scoreOne model a)).sentiment.isSome = true ∧
      (adjustOne (scoreOne model a)).subjectivity.isSome = true := by
  unfold adjustOne scoreOne
  by_cases hl : (some (model a.title).1 = some "NEUTRAL") <;> simp [hl]

end NewsParser

/-- Counting through a successful `Option`-monadic `mapM`: the image of an
element occurs in the output at least as often as the element occurs in
the input. -/
theorem mapM_count_le (f : Article → Option String) (l : List Article)
    (items : List String) (hm : l.mapM f = some items) (a : Article) (s : String)
    (hf : f a = some s) : l.count a ≤ items.count s := by
  induction l generalizing items with
  | nil =>
    simp only [List.mapM_nil, pure, Option.some.injEq] at hm
    subst hm
    simp
  | cons x xs ih =>
    rw [List.mapM_cons] at hm
    cases hfx : f x with
    | none => rw [hfx] at hm; simp at hm
    | some y =>
      rw [hfx] at hm
      cases hxs : xs.mapM f with
      | none => rw [hxs] at hm; simp at hm
      | some ys =>
        rw [hxs] at hm
        simp at hm
        subst hm
        simp only [List.count_cons]
        have h1 := ih ys hxs
        by_cases hxa : a = x
        · have hsy : s = y := by
            rw [← hxa] at hfx
            rw [hf] at hfx
            exact Option.some.inj hfx
          have hbx : (x == a) = true := by simp [hxa]
          have hby : (y == s) = true := by simp [hsy]
          rw [hbx, hby]
          simp only [if_pos rfl]
          omega
        · have hbx : (x == a) = false := by
            rw [beq_eq_false_iff_ne]
            exact fun he => hxa he.symm
          rw [hbx, if_neg (by simp)]
          omega

/-- C1: for every input list of articles, deduplication by link keeps
exactly one article per distinct link value present in the input — the one
appearing last in input order (last write wins).  Filtering the
deduplicated list for any link `k` yields exactly the last input article
with that link (the empty list when `k` never occurs), and the number of
retained articles with link `k` is one exactly when some input article has
link `k`. -/
theorem C1_dedup_last_write_wins (l : List Article) (k : String) :
    (NewsParser.dedupByLink l).filter (fun a => decide (a.link = k)) =
      (l.reverse.find? (fun a => decide (a.link = k))).toList ∧
    ((NewsParser.dedupByLink l).filter (fun a => decide (a.link = k))).length =
      (if k ∈ l.map Article.link then 1 else 0) := by
  refine ⟨NewsParser.dedupByLink_filter l k, ?_⟩
  rw [NewsParser.dedupByLink_filter l k]
  cases hf : l.reverse.find? (fun a => decide (a.link = k)) with
  | none =>
    have hno : k ∉ l.map Article.link := by
      intro hk
      rcases List.mem_map.1 hk with ⟨a, ha, hlink⟩
      have := List.find?_eq_none.1 hf a (List.mem_reverse.2 ha)
      simp [hlink] at this
    simp [hno]
  | some a =>
    have hp := List.find?_some hf
    have hmem := List.mem_of_find?_eq_some hf
    have hk : k ∈ l.map Article.link := by
      apply List.mem_map.2
      exact ⟨a, List.mem_reverse.1 hmem, by simpa using hp⟩
    simp [hk]

/-- C2: the sort step returns a permutation of its input whose `published`
fields are non-increasing under the lexicographic order on strings. -/
theorem C2_sort_descending (l : List Article) :
    (NewsParser.filter_and_sort_articles l).Perm l ∧
    (NewsParser.filter_and_sort_articles l).Pairwise
      (fun a b => b.published ≤ a.published) := by
  constructor
  · exact List.perm_insertionSort _ l
  · haveI : IsTotal Article (fun a b : Article => b.published ≤ a.published) :=
      ⟨fun a b => le_total b.published a.published⟩
    haveI : IsTrans Article (fun a b : Article => b.published ≤ a.published) :=
      ⟨fun a b c hab hbc => le_trans hbc hab⟩
    exact List.sorted_insertionSort _ l

/-- C5: the claim says `fetch_news` returns the empty list after an I/O
failure even when the error occurs before any response object exists; the
code instead evaluates the unassigned local `response` in its `except`
block, so `UnboundLocalError` escapes.  This theorem records what the code
does at that failing input. -/
theorem C5_fetch_news_io_error_raises :
    NewsFetcher.fetch_news NewsFetcher.GetResult.ioError =
      PyResult.exn "UnboundLocalError" := rfl

/-- C6: the report object holds exactly the six keys `unique_articles`,
`analyzed_articles`, `filtered_vish`, `filtered_high_speed`,
`filtered_rzd`, `final_articles` in that order, and `final_articles` is
the concatenation of the three filtered collections in that order. -/
theorem C6_report_shape (model : String → String × ℚ) (v h z : List Article) :
    (NewsParser.reportPairs (NewsParser.main model v h z)).map Prod.fst =
      ["unique_articles", "analyzed_articles", "filtered_vish",
       "filtered_high_speed", "filtered_rzd", "final_articles"] ∧
    (NewsParser.main model v h z).final_articles =
      (NewsParser.main model v h z).filtered_vish ++
        (NewsParser.main model v h z).filtered_high_speed ++
        (NewsParser.main model v h z).filtered_rzd :=
  ⟨rfl, NewsParser.main_final_eq model v h z⟩

/-- C7: a query answered 503 on the first three attempts and 200 on the
fourth succeeds through the retries of the adapter, and `fetch_news` returns
the articles parsed from the 200 response; the configured policy allows 5
retries on statuses 500, 502, 503 and 504 with backoff factor 0.1. -/
theorem C7_retry_policy :
    NewsFetcher.fetch_news_scripted wScript503 =
      PyResult.ret [NewsFetcher.projectArticle wRaw] ∧
    NewsFetcher.sessionGet wScript503 = some { status := 200, articles := [wRaw] } ∧
    NewsFetcher.sessionRetries.total = 5 ∧
    NewsFetcher.sessionRetries.status_forcelist = [500, 502, 503, 504] ∧
    NewsFetcher.sessionRetries.backoff_factor = 1 / 10 := by
  refine ⟨by decide, by decide, rfl, rfl, rfl⟩

theorem getD_map_of_lt (f : Article → Article) (l : List Article) (i : Nat)
    (hi : i < l.length) (d : Article) : (l.map f).getD i d = f (l.getD i d) := by
  rw [List.getD_eq_getElem?_getD, List.getD_eq_getElem?_getD, List.getElem?_map,
    List.getElem?_eq_getElem hi]
  rfl

theorem orderedInsert_map_read (f : Nat → Article) (i : Nat) (l : List Nat) :
    (List.orderedInsert (fun i j => (f j).published ≤ (f i).published) i l).map f
      = List.orderedInsert (fun a b => b.published ≤ a.published) (f i) (l.map f) := by
  induction l with
  | nil => rfl
  | cons j t ih =>
    simp only [List.orderedInsert]
    by_cases hc : (f j).published ≤ (f i).published
    · rw [if_pos hc, if_pos hc]
      rfl
    · rw [if_neg hc, if_neg hc, List.map_cons, ih]

theorem insertionSort_map_read (f : Nat → Article) (l : List Nat) :
    (List.insertionSort (fun i j => (f j).published ≤ (f i).published) l).map f
      = List.insertionSort (fun a b => b.published ≤ a.published) (l.map f) := by
  induction l with
  | nil => rfl
  | cons i t ih =>
    simp only [List.insertionSort, List.map_cons]
    rw [orderedInsert_map_read, ih]

/-- Coherence of the store model with the article-level sort: reading the
sorted references back from the store yields exactly
`filter_and_sort_articles` of the store. -/
theorem sortedRefsOf_reads (store : List Article) :
    (NewsParser.sortedRefsOf store).map (fun i => store.getD i default)
      = NewsParser.filter_and_sort_articles store := by
  unfold NewsParser.sortedRefsOf NewsParser.filter_and_sort_articles
  rw [insertionSort_map_read (fun i => store.getD i default) (List.range store.length),
    NewsParser.range_map_getD]

/-- Coherence of the store model with the functional composition: the
`analyzed_articles` collection of the report equals the sorted
deduplicated articles, scored and then adjusted. -/
theorem main_analyzed_articles_eq (model : String → String × ℚ) (v h z : List Article) :
    (NewsParser.main model v h z).analyzed_articles =
      NewsParser.adjust_subjectivity (NewsParser.analyze_sentiment model
        (NewsParser.filter_and_sort_articles (NewsParser.dedupByLink (v ++ h ++ z)))) := by
  simp only [NewsParser.main, NewsParser.main_store_eq]
  unfold NewsParser.adjust_subjectivity NewsParser.analyze_sentiment
  rw [List.map_map, ← sortedRefsOf_reads (NewsParser.dedupByLink (v ++ h ++ z)),
    List.map_map]
  apply List.map_congr_left
  intro i hi
  have hlt : i < (NewsParser.dedupByLink (v ++ h ++ z)).length :=
    List.mem_range.1 ((NewsParser.sortedRefsOf_perm (NewsParser.dedupByLink (v ++ h ++ z))).mem_iff.1 hi)
  exact getD_map_of_lt _ _ i hlt default

/-- C3: after the subjectivity adjustment, an article scored `NEUTRAL`
has subjectivity exactly `0.1`, an article with any other label keeps the
score given by the classifier, and no sentiment label changes.  Stated positionally
for the article at index `i`: the adjusted list is as long as the input,
its `i`-th sentiment equals the scored `i`-th sentiment, the scored
sentiment and subjectivity are the label and score of the model for the `i`-th
title, a scored `NEUTRAL` becomes subjectivity `0.1`, and a scored
non-`NEUTRAL` keeps its subjectivity. -/
theorem C3_neutral_override (model : String → String × ℚ) (l : List Article)
    (i : Nat) (hi : i < l.length) :
    (NewsParser.adjust_subjectivity (NewsParser.analyze_sentiment model l)).length
        = l.length ∧
    ((NewsParser.adjust_subjectivity (NewsParser.analyze_sentiment model l)).getD
        i default).sentiment
      = ((NewsParser.analyze_sentiment model l).getD i default).sentiment ∧
    ((NewsParser.analyze_sentiment model l).getD i default).sentiment
      = some ((model ((l.getD i default).title)).1) ∧
    ((NewsParser.analyze_sentiment model l).getD i default).subjectivity
      = some ((model ((l.getD i default).title)).2) ∧
    (((NewsParser.analyze_sentiment model l).getD i default).sentiment
        = some "NEUTRAL" →
      ((NewsParser.adjust_subjectivity (NewsParser.analyze_sentiment model l)).getD
          i default).subjectivity = some (1 / 10 : ℚ)) ∧
    (((NewsParser.analyze_sentiment model l).getD i default).sentiment
        ≠ some "NEUTRAL" →
      ((NewsParser.adjust_subjectivity (NewsParser.analyze_sentiment model l)).getD
          i default).subjectivity
        = ((NewsParser.analyze_sentiment model l).getD i default).subjectivity) := by
  have hmid : (NewsParser.analyze_sentiment model l).getD i default
      = NewsParser.scoreOne model (l.getD i default) :=
    getD_map_of_lt _ l i hi default
  have hlen : (NewsParser.analyze_sentiment model l).length = l.length :=
    List.length_map _ _
  have hout : (NewsParser.adjust_subjectivity
        (NewsParser.analyze_sentiment model l)).getD i default
      = NewsParser.adjustOne ((NewsParser.analyze_sentiment model l).getD i default) :=
    getD_map_of_lt _ _ i (by rw [hlen]; exact hi) default
  refine ⟨by simp [NewsParser.adjust_subjectivity, NewsParser.analyze_sentiment],
    ?_, ?_, ?_, ?_, ?_⟩
  · rw [hout]
    unfold NewsParser.adjustOne
    by_cases hnl : ((NewsParser.analyze_sentiment model l).getD i default).sentiment
        = some "NEUTRAL"
    · rw [if_pos hnl]
    · rw [if_neg hnl]
  · rw [hmid]
    rfl
  · rw [hmid]
    rfl
  · intro hneu
    rw [hout]
    unfold NewsParser.adjustOne
    rw [if_pos hneu]
  · intro hneu
    rw [hout]
    unfold NewsParser.adjustOne
    rw [if_neg hneu]

/-- Witness for C3 at a concrete input: with a model that labels the
single article `NEUTRAL` with confidence `0.87`, the adjusted
article has subjectivity exactly `0.1`. -/
theorem C3_neutral_override_witness :
    ((NewsParser.adjust_subjectivity
        (NewsParser.analyze_sentiment wModelNeutral [wArticleA])).getD
      0 default).subjectivity = some (1 / 10 : ℚ) := by
  have h := C3_neutral_override wModelNeutral [wArticleA] 0 (by decide)
  exact h.2.2.2.2.1 (by decide)

/-- C4: the keyword filter returns the subsequence of exactly those
articles for which some keyword occurs as a contiguous substring of the
title or of the description (the description read as `""` when absent):
the output is a sublist of the input, and membership in the output is
equivalent to membership in the input together with such a keyword. -/
theorem C4_keyword_filter (articles : List Article) (keywords : List String) :
    (NewsParser.filter_articles_by_keywords articles keywords).Sublist articles ∧
    ∀ a, a ∈ NewsParser.filter_articles_by_keywords articles keywords ↔
      (a ∈ articles ∧ ∃ k ∈ keywords,
        (∃ pre post, pre ++ k.data ++ post = a.title.data) ∨
        (∃ pre post, pre ++ k.data ++ post = (a.description.getD "").data)) := by
  constructor
  · exact List.filter_sublist _
  · intro a
    unfold NewsParser.filter_articles_by_keywords NewsParser.matchesKeywords
    simp only [List.mem_filter, List.any_eq_true, Bool.or_eq_true, decide_eq_true_eq]
    exact Iff.rfl

/-- Witness for C4 at a concrete input: the article titled `ВСМ и РЖД` is
kept by the `keywords_rzd` filter because `РЖД` occurs in the title. -/
theorem C4_keyword_filter_witness :
    wArticleMulti ∈ NewsParser.filter_articles_by_keywords [wArticleMulti] keywords_rzd := by
  have h := C4_keyword_filter [wArticleMulti] keywords_rzd
  refine (h.2 wArticleMulti).2 ⟨by decide, "РЖД", by decide, Or.inl ?_⟩
  exact ⟨"ВСМ и ".data, [], by decide⟩

/-- C8: the deduplicated sequence lists its links in the order of the
first occurrence of each link in the input, even though the retained
article for each link is the last occurrence. -/
theorem C8_dedup_first_occurrence_order (l : List Article) :
    (NewsParser.dedupByLink l).map Article.link
        = firstOccurrences (l.map Article.link) ∧
    ∀ a ∈ NewsParser.dedupByLink l,
      l.reverse.find? (fun b => decide (b.link = a.link)) = some a := by
  constructor
  · have h := NewsParser.dedupByLink_links l
    unfold linksOf at h
    exact h
  · intro a ha
    have h := NewsParser.dedupByLink_filter l a.link
    have hmem : a ∈ (NewsParser.dedupByLink l).filter (fun b => decide (b.link = a.link)) :=
      List.mem_filter.2 ⟨ha, by simp⟩
    rw [h] at hmem
    cases hf : l.reverse.find? (fun b => decide (b.link = a.link)) with
    | none =>
      rw [hf] at hmem
      simp at hmem
    | some b =>
      rw [hf] at hmem
      simp at hmem
      rw [hmem]

/-- Witness for C8 at a concrete input: in a one-article list the single
retained article is the last (only) occurrence of its link. -/
theorem C8_dedup_first_occurrence_order_witness :
    ([wArticleA] : List Article).reverse.find?
      (fun b => decide (b.link = wArticleA.link)) = some wArticleA := by
  have h := C8_dedup_first_occurrence_order [wArticleA]
  exact h.2 wArticleA (by decide)

/-- C9: because scoring and adjusting mutate the shared article
dictionaries in place, every article in every one of the six report
collections — including `unique_articles` — carries the `sentiment` and
`subjectivity` fields at the time the report is written, and
`unique_articles` and `analyzed_articles` hold the same articles, in
different orders. -/
theorem C9_shared_mutation (model : String → String × ℚ) (v h z : List Article) :
    (NewsParser.main model v h z).unique_articles.Perm
      (NewsParser.main model v h z).analyzed_articles ∧
    ∀ a, (a ∈ (NewsParser.main model v h z).unique_articles ∨
          a ∈ (NewsParser.main model v h z).analyzed_articles ∨
          a ∈ (NewsParser.main model v h z).filtered_vish ∨
          a ∈ (NewsParser.main model v h z).filtered_high_speed ∨
          a ∈ (NewsParser.main model v h z).filtered_rzd ∨
          a ∈ (NewsParser.main model v h z).final_articles) →
      a.sentiment.isSome = true ∧ a.subjectivity.isSome = true := by
  constructor
  · rw [NewsParser.main_unique_eq]
    exact (NewsParser.main_analyzed_perm model v h z).symm
  · have hana : ∀ a, a ∈ (NewsParser.main model v h z).analyzed_articles →
        a.sentiment.isSome = true ∧ a.subjectivity.isSome = true := by
      intro a ha
      rcases NewsParser.main_mem_analyzed model v h z a ha with ⟨b, _, he⟩
      rw [he]
      exact NewsParser.enrich_fields model b
    intro a hmem
    rcases hmem with hc | hc | hc | hc | hc | hc
    · rw [NewsParser.main_unique_eq] at hc
      rcases List.mem_map.1 hc with ⟨b, _, he⟩
      rw [← he]
      exact NewsParser.enrich_fields model b
    · exact hana a hc
    · rw [NewsParser.main_filtered_vish_eq] at hc
      exact hana a (List.mem_filter.1 hc).1
    · rw [NewsParser.main_filtered_high_speed_eq] at hc
      exact hana a (List.mem_filter.1 hc).1
    · rw [NewsParser.main_filtered_rzd_eq] at hc
      exact hana a (List.mem_filter.1 hc).1
    · rw [NewsParser.main_final_eq] at hc
      rcases List.mem_append.1 hc with hc2 | hc2
      · rcases List.mem_append.1 hc2 with hc3 | hc3
        · rw [NewsParser.main_filtered_vish_eq] at hc3
          exact hana a (List.mem_filter.1 hc3).1
        · rw [NewsParser.main_filtered_high_speed_eq] at hc3
          exact hana a (List.mem_filter.1 hc3).1
      · rw [NewsParser.main_filtered_rzd_eq] at hc2
        exact hana a (List.mem_filter.1 hc2).1

/-- Witness for C9 at a concrete input: the enriched article read back
from `unique_articles` carries both derived fields. -/
theorem C9_shared_mutation_witness :
    wArticleAPositive.sentiment.isSome = true ∧
      wArticleAPositive.subjectivity.isSome = true := by
  have h := C9_shared_mutation wModelPositive [wArticleA] [] []
  exact h.2 wArticleAPositive (Or.inl (by decide))

/-- C10: an article matching keywords of several of the three keyword
lists appears once in each matching filtered subset, so its multiplicity
in `final_articles` is the number of matching lists — at least two for an
article matching two lists — and the rendered dashboard repeats its list
item accordingly, despite the earlier deduplication by link. -/
theorem C10_multi_keyword_duplication (model : String → String × ℚ)
    (v h z : List Article) (a : Article)
    (ha : a ∈ (NewsParser.main model v h z).analyzed_articles)
    (hm : 2 ≤ (if NewsParser.matchesKeywords a keywords_vish = true then 1 else 0)
        + (if NewsParser.matchesKeywords a keywords_high_speed = true then 1 else 0)
        + (if NewsParser.matchesKeywords a keywords_rzd = true then 1 else 0)) :
    ((NewsParser.main model v h z).final_articles).count a =
        (if NewsParser.matchesKeywords a keywords_vish = true then 1 else 0)
        + (if NewsParser.matchesKeywords a keywords_high_speed = true then 1 else 0)
        + (if NewsParser.matchesKeywords a keywords_rzd = true then 1 else 0) ∧
    (NewsParser.matchesKeywords a keywords_vish = true →
      ((NewsParser.main model v h z).filtered_vish).count a = 1) ∧
    (NewsParser.matchesKeywords a keywords_high_speed = true →
      ((NewsParser.main model v h z).filtered_high_speed).count a = 1) ∧
    (NewsParser.matchesKeywords a keywords_rzd = true →
      ((NewsParser.main model v h z).filtered_rzd).count a = 1) ∧
    2 ≤ ((NewsParser.main model v h z).final_articles).count a ∧
    (∀ items s,
      NewsParser.dashboardItems ((NewsParser.main model v h z).final_articles)
          = some items →
      NewsParser.renderEntry a = some s → 2 ≤ items.count s) := by
  have hnd := NewsParser.main_analyzed_nodup model v h z
  have countv : ((NewsParser.main model v h z).filtered_vish).count a
      = (if NewsParser.matchesKeywords a keywords_vish = true then 1 else 0) := by
    rw [NewsParser.main_filtered_vish_eq]
    by_cases hv : NewsParser.matchesKeywords a keywords_vish = true
    · rw [if_pos hv]
      exact List.count_eq_one_of_mem (hnd.filter _) (List.mem_filter.2 ⟨ha, hv⟩)
    · rw [if_neg hv]
      exact List.count_eq_zero.2 (fun hc => hv (List.mem_filter.1 hc).2)
  have counth : ((NewsParser.main model v h z).filtered_high_speed).count a
      = (if NewsParser.matchesKeywords a keywords_high_speed = true then 1 else 0) := by
    rw [NewsParser.main_filtered_high_speed_eq]
    by_cases hv : NewsParser.matchesKeywords a keywords_high_speed = true
    · rw [if_pos hv]
      exact List.count_eq_one_of_mem (hnd.filter _) (List.mem_filter.2 ⟨ha, hv⟩)
    · rw [if_neg hv]
      exact List.count_eq_zero.2 (fun hc => hv (List.mem_filter.1 hc).2)
  have countz : ((NewsParser.main model v h z).filtered_rzd).count a
      = (if NewsParser.matchesKeywords a keywords_rzd = true then 1 else 0) := by
    rw [NewsParser.main_filtered_rzd_eq]
    by_cases hv : NewsParser.matchesKeywords a keywords_rzd = true
    · rw [if_pos hv]
      exact List.count_eq_one_of_mem (hnd.filter _) (List.mem_filter.2 ⟨ha, hv⟩)
    · rw [if_neg hv]
      exact List.count_eq_zero.2 (fun hc => hv (List.mem_filter.1 hc).2)
  have hfinal : ((NewsParser.main model v h z).final_articles).count a =
      (if NewsParser.matchesKeywords a keywords_vish = true then 1 else 0)
      + (if NewsParser.matchesKeywords a keywords_high_speed = true then 1 else 0)
      + (if NewsParser.matchesKeywords a keywords_rzd = true then 1 else 0) := by
    rw [NewsParser.main_final_eq, List.count_append, List.count_append,
      countv, counth, countz]
  refine ⟨hfinal, ?_, ?_, ?_, ?_, ?_⟩
  · intro hv
    rw [countv, if_pos hv]
  · intro hv
    rw [counth, if_pos hv]
  · intro hv
    rw [countz, if_pos hv]
  · rw [hfinal]
    exact hm
  · intro items s hitems hrender
    have hcount := mapM_count_le NewsParser.renderEntry _ items hitems a s hrender
    have h2 : 2 ≤ ((NewsParser.main model v h z).final_articles).count a := by
      rw [hfinal]
      exact hm
    omega

/-- Witness for C10 at a concrete input: the article titled `ВСМ и РЖД`
matches both the high-speed and the RZD keyword lists and appears at
least twice in `final_articles`. -/
theorem C10_multi_keyword_duplication_witness :
    2 ≤ ((NewsParser.main wModelPositive [wArticleMulti] [] []).final_articles).count
      wArticleMultiPositive := by
  have h := C10_multi_keyword_duplication wModelPositive [wArticleMulti] [] []
    wArticleMultiPositive (by decide) (by decide)
  exact h.2.2.2.2.1
